import Mathlib

/-!
Verification development for the MarkShot capture core.

The definitions below are shallow embeddings of:
- src/src/utils/regionSelectionLogic.ts (region-selection state machine and
  the scroll-capture stitching utilities),
- src/electron/main.ts (overlay-window pool and capture orchestration).

Coordinates are JavaScript numbers; all inputs of interest are integers, so
points are embedded with integer coordinates.  Pixel error averages are
embedded as exact fractions (the concrete values involved are exactly
representable as IEEE doubles, so exact rational arithmetic agrees with
the source's floating-point arithmetic on them).
-/

namespace RegionSelection

/-- Embeds interface Point (regionSelectionLogic.ts lines 9-12). -/
structure Point where
  x : Int
  y : Int
deriving DecidableEq, Repr

/-- Embeds interface Rect (regionSelectionLogic.ts lines 14-19). -/
structure Rect where
  x : Int
  y : Int
  w : Int
  h : Int
deriving DecidableEq, Repr

/-- Embeds interface SelectionState (regionSelectionLogic.ts lines 21-26). -/
structure SelectionState where
  pointerDown : Option Point
  isDragging : Bool
  startPos : Point
  currentEnd : Point
deriving DecidableEq, Repr

/-- Embeds MIN_SIZE_PX (line 6). -/
def MIN_SIZE_PX : Int := 20

/-- Embeds DRAG_START_THRESHOLD_PX (line 7). -/
def DRAG_START_THRESHOLD_PX : Int := 5

/-- Embeds emptyState (lines 28-33). -/
def emptyState : SelectionState :=
  { pointerDown := none
    isDragging := false
    startPos := { x := 0, y := 0 }
    currentEnd := { x := 0, y := 0 } }

/-- Embeds the squared distance of dist (lines 35-37).  The source computes
Math.sqrt of this value and compares it with DRAG_START_THRESHOLD_PX = 5;
since the square root is monotone and 5 and 25 are exactly representable,
sqrt d ≥ 5 holds iff d ≥ 25, so the embedding compares the square directly. -/
def distSq (a b : Point) : Int :=
  (b.x - a.x) ^ 2 + (b.y - a.y) ^ 2

/-- Embeds createInitialState (lines 40-42). -/
def createInitialState : SelectionState := emptyState

/-- Embeds resetState (lines 45-47). -/
def resetState (_state : SelectionState) : SelectionState := createInitialState

/-- Embeds onPointerDown (lines 50-58). -/
def onPointerDown (state : SelectionState) (pt : Point) : SelectionState :=
  if state.isDragging then state
  else { state with pointerDown := some pt, startPos := pt, currentEnd := pt }

/-- Embeds onPointerMove (lines 61-78).  The drag-start test
`dist(state.pointerDown, pt) >= DRAG_START_THRESHOLD_PX` is embedded as
`distSq ≥ 25` (see distSq). -/
def onPointerMove (state : SelectionState) (pt : Point) : SelectionState :=
  match state.pointerDown, state.isDragging with
  | some pd, false =>
    if distSq pd pt ≥ DRAG_START_THRESHOLD_PX ^ 2 then
      { state with
          isDragging := true
          pointerDown := none
          startPos := pd
          currentEnd := pt }
    else
      { state with currentEnd := pt }
  | _, _ => { state with currentEnd := pt }

/-- Embeds onPointerUp (lines 81-92); some rect plays the role of
`{send: true, rect}` and none of `{send: false}`. -/
def onPointerUp (state : SelectionState) : Option Rect :=
  if state.pointerDown ≠ none ∧ state.isDragging = false then none
  else if state.isDragging = false then none
  else if |state.currentEnd.x - state.startPos.x| < MIN_SIZE_PX ∨
      |state.currentEnd.y - state.startPos.y| < MIN_SIZE_PX then none
  else
    some
      { x := min state.startPos.x state.currentEnd.x
        y := min state.startPos.y state.currentEnd.y
        w := |state.currentEnd.x - state.startPos.x|
        h := |state.currentEnd.y - state.startPos.y| }

/-- Embeds runOneCaptureSequence (lines 97-104). -/
def runOneCaptureSequence : Option Rect :=
  let state0 := createInitialState
  let state1 := onPointerDown state0 { x := 100, y := 100 }
  let state2 := onPointerMove state1 { x := 110, y := 110 }
  let state3 := onPointerMove state2 { x := 200, y := 200 }
  onPointerUp state3

/-- Embeds runClickOnlySequence (lines 109-114). -/
def runClickOnlySequence : Option Rect :=
  let state0 := createInitialState
  let state1 := onPointerDown state0 { x := 100, y := 100 }
  onPointerUp state1

/-- A pointer event forwarded by an overlay surface to the state machine. -/
inductive PointerEvent where
  | down (pt : Point)
  | move (pt : Point)
  | up
  | reset
deriving DecidableEq, Repr

/-- One step of the state machine on an event.  onPointerUp returns a
decision and leaves the state value unchanged, so the up event is the
identity on the state. -/
def stepEvent (state : SelectionState) : PointerEvent → SelectionState
  | .down pt => onPointerDown state pt
  | .move pt => onPointerMove state pt
  | .up => state
  | .reset => resetState state

/-- Runs the state machine from the initial state over a list of events. -/
def runEvents (evs : List PointerEvent) : SelectionState :=
  evs.foldl stepEvent createInitialState

end RegionSelection

namespace Stitching

/-- Embeds the DOM ImageData values consumed by the stitching utilities in
regionSelectionLogic.ts: a width, a height and a flat RGBA byte buffer of
length 4 * width * height (row-major, 4 bytes per pixel). -/
structure ImageData where
  width : Nat
  height : Nat
  data : List Nat
deriving DecidableEq, Repr

/-- Reads a byte of a pixel buffer.  All accesses performed by the
stitching code on well-formed inputs are in bounds; out-of-range reads
default to 0. -/
def byteAt (data : List Nat) (i : Nat) : Nat := data.getD i 0

/-- Embeds the `| 0` coercion of JavaScript: wraps an integer to the
signed 32-bit range. -/
def toInt32 (z : Int) : Int := (z + 2 ^ 31) % 2 ^ 32 - 2 ^ 31

/-- Embeds rowFingerprint (lines 121-135): hashes every 8th pixel of row y,
folding with hash = (hash * 31 + r + g + b) | 0. -/
def rowFingerprint (data : List Nat) (width : Nat) (y : Nat) : Int :=
  let stride := width * 4
  let offset := y * stride
  let xs := (List.range width).filter (fun x => x % 8 = 0)
  xs.foldl
    (fun hash x =>
      let i := offset + x * 4
      toInt32 (hash * 31 + byteAt data i + byteAt data (i + 1) + byteAt data (i + 2)))
    0

/-- Embeds frameFingerprint (lines 138-147): hashes 5 sampled rows
y = floor(height * i / 5), i = 0..4. -/
def frameFingerprint (imageData : ImageData) : Int :=
  (List.range 5).foldl
    (fun hash i =>
      let y := imageData.height * i / 5
      toInt32 (hash * 31 + rowFingerprint imageData.data imageData.width y))
    0

/-- Embeds the loop of removeDuplicateFrames (lines 155-161): keeps a frame
when its fingerprint differs from the previous kept fingerprint. -/
def dedupLoop : List ImageData → Int → List ImageData
  | [], _ => []
  | f :: rest, prevFP =>
    let fp := frameFingerprint f
    if fp ≠ prevFP then f :: dedupLoop rest fp
    else dedupLoop rest prevFP

/-- Embeds removeDuplicateFrames (lines 150-163). -/
def removeDuplicateFrames (frames : List ImageData) : List ImageData :=
  match frames with
  | [] => []
  | f0 :: rest => f0 :: dedupLoop rest (frameFingerprint f0)

/-- The error values of the stitcher are nonnegative reals with exact
rational values (every quantity the source computes here is a quotient of
small integers, exactly representable as an IEEE double, so its
floating-point arithmetic is exact).  They are embedded as unreduced
fractions with positive denominators, on which the source's additions,
divisions and comparisons are exact rational arithmetic; keeping the
fractions unreduced keeps every operation structurally computable. -/
structure Frac where
  num : Int
  den : Int
deriving DecidableEq, Repr

/-- Exact addition of fractions. -/
def Frac.add (x y : Frac) : Frac :=
  { num := x.num * y.den + y.num * x.den, den := x.den * y.den }

/-- Exact division of a fraction by a natural count. -/
def Frac.divNat (x : Frac) (n : Nat) : Frac :=
  { num := x.num, den := x.den * n }

/-- Comparison x < y of fractions with positive denominators, by cross
multiplication. -/
def Frac.lt (x y : Frac) : Bool :=
  decide (x.num * y.den < y.num * x.den)

/-- Comparison x < n of a fraction with positive denominator against an
integer, by cross multiplication. -/
def Frac.ltInt (x : Frac) (n : Int) : Bool :=
  decide (x.num < n * x.den)

/-- Comparison n < x of an integer against a fraction with positive
denominator, by cross multiplication. -/
def Frac.intLt (n : Int) (x : Frac) : Bool :=
  decide (n * x.den < x.num)

/-- Embeds rowMSE (lines 166-190): mean squared channel error over the
pixels x = 0, 4, 8, ... of one row of each buffer.  none plays the role of
the Infinity returned when no pixel is sampled (count = 0). -/
def rowMSE (a : List Nat) (aWidth aY : Nat) (b : List Nat) (bWidth bY : Nat) :
    Option Frac :=
  let w := min aWidth bWidth
  let aOff := aY * aWidth * 4
  let bOff := bY * bWidth * 4
  let xs := (List.range w).filter (fun x => x % 4 = 0)
  let sum : Int := xs.foldl
    (fun s x =>
      let ai := aOff + x * 4
      let bi := bOff + x * 4
      let dr : Int := (byteAt a ai : Int) - byteAt b bi
      let dg : Int := (byteAt a (ai + 1) : Int) - byteAt b (bi + 1)
      let db : Int := (byteAt a (ai + 2) : Int) - byteAt b (bi + 2)
      s + dr * dr + dg * dg + db * db)
    0
  let count := xs.length
  if count > 0 then some { num := sum, den := (count : Int) * 3 } else none

/-- Embeds MSE_THRESHOLD (line 198). -/
def MSE_THRESHOLD : Int := 50

/-- Embeds MIN_CHECK_ROWS (line 199). -/
def MIN_CHECK_ROWS : Nat := 5

/-- The candidate overlap sizes of the search loop, structurally: the
fuel bounds the number of iterations. -/
def overlapCandidatesAux : Nat → Nat → List Nat
  | 0, _ => []
  | fuel + 1, m =>
    if m < MIN_CHECK_ROWS then []
    else m :: overlapCandidatesAux fuel (m - 2)

/-- The candidate overlap sizes tried by detectOverlap (line 205): m,
m - 2, m - 4, ..., stopping below MIN_CHECK_ROWS = 5. -/
def overlapCandidates (m : Nat) : List Nat :=
  overlapCandidatesAux (m + 1) m

/-- Embeds the row-checking loop of one candidate overlap (lines 206-226):
the sampled rows are 0, step, 2*step, ... < overlap with
step = max 1 (overlap / 10).  Returns none when the candidate is discarded
(some sampled row's error exceeds MSE_THRESHOLD * 4, including an infinite
row error, or no row is sampled so the average is Infinity); otherwise
returns the average error over the sampled rows.  The early `bad` break of
the source only skips work on a discarded candidate, so it does not change
this value. -/
def candidateMSE (a b : ImageData) (overlap : Nat) : Option Frac :=
  let step := max 1 (overlap / 10)
  let rows := (List.range overlap).filter (fun r => r % step = 0)
  let vals := rows.map (fun row =>
    rowMSE a.data a.width (a.height - overlap + row) b.data b.width row)
  if vals.any (fun v =>
      match v with
      | none => true
      | some q => Frac.intLt (MSE_THRESHOLD * 4) q) then none
  else if vals.length > 0 then
    some ((vals.foldl (fun (s : Frac) v => s.add (v.getD { num := 0, den := 1 }))
      { num := 0, den := 1 }).divNat vals.length)
  else none

/-- Whether a finite average error q beats the running best (bestMSE =
none plays the role of the initial Infinity). -/
def beatsBest (q : Frac) (bestMSE : Option Frac) : Bool :=
  match bestMSE with
  | none => true
  | some b => Frac.lt q b

/-- Embeds the candidate search loop of detectOverlap (lines 201-233):
bestOverlap/bestMSE accumulate the accepted candidate with the lowest
average error; the search stops once an accepted candidate's error drops
below 20. -/
def searchLoop (a b : ImageData) :
    List Nat → Nat → Option Frac → Nat
  | [], bestOverlap, _ => bestOverlap
  | overlap :: rest, bestOverlap, bestMSE =>
    match candidateMSE a b overlap with
    | none => searchLoop a b rest bestOverlap bestMSE
    | some avgMSE =>
      if avgMSE.ltInt MSE_THRESHOLD && beatsBest avgMSE bestMSE then
        if avgMSE.ltInt 20 then overlap
        else searchLoop a b rest overlap (some avgMSE)
      else searchLoop a b rest bestOverlap bestMSE

/-- Embeds maxOverlap (line 197): floor(min(a.height, b.height) * 0.8).
For natural heights below 2^50 the floating-point product floor equals
the exact floor, which is 4 * h / 5 in natural division. -/
def maxOverlapOf (a b : ImageData) : Nat := 4 * min a.height b.height / 5

/-- Embeds detectOverlap (lines 196-236). -/
def detectOverlap (a b : ImageData) : Nat :=
  searchLoop a b (overlapCandidates (maxOverlapOf a b)) 0 none

/-- A candidate overlap is accepted when its average sampled-row error is
below the acceptance threshold (line 227). -/
def accepted (a b : ImageData) (overlap : Nat) : Prop :=
  ∃ q : Frac, candidateMSE a b overlap = some q ∧ q.ltInt MSE_THRESHOLD = true

/-- Boolean form of accepted. -/
def acceptedB (a b : ImageData) (overlap : Nat) : Bool :=
  match candidateMSE a b overlap with
  | none => false
  | some q => q.ltInt MSE_THRESHOLD

instance (a b : ImageData) (overlap : Nat) : Decidable (accepted a b overlap) :=
  decidable_of_iff (acceptedB a b overlap = true) (by
    unfold accepted acceptedB
    cases h : candidateMSE a b overlap <;> simp)

/-- A fresh HTML canvas of the given size: transparent black, i.e. a zero
RGBA buffer (stitchFrames creates its canvases with document.createElement). -/
def newCanvas (w h : Nat) : ImageData :=
  { width := w, height := h, data := List.replicate (4 * w * h) 0 }

/-- Copies src onto dest with its top-left corner at (0, dy), clipped to
the destination.  This is the pixel effect both of
putImageData(src, 0, 0) on a same-sized canvas and of
drawImage(tmp, 0, dy) of that canvas onto the output canvas (the frames
are opaque screenshots, so source-over compositing is a plain copy). -/
def blit (dest src : ImageData) (dy : Nat) : ImageData :=
  let rowBytes := 4 * dest.width
  let copyBytes := 4 * min src.width dest.width
  { dest with
      data := (List.range (rowBytes * dest.height)).map (fun i =>
        let y := i / rowBytes
        let xb := i % rowBytes
        if dy ≤ y ∧ y < dy + src.height ∧ xb < copyBytes then
          byteAt src.data ((y - dy) * (4 * src.width) + xb)
        else byteAt dest.data i) }

/-- The value of stitchFrames: the source returns a data URL string, with
the empty string for the zero-frame case and a PNG encoding of the
composited canvas otherwise.  PNG encoding is injective on the pixel
data, so it is embedded as the constructor png. -/
inductive StitchOutput where
  | empty
  | png (image : ImageData)
deriving DecidableEq, Repr

/-- Embeds stitchFrames (lines 242-292): zero frames yield the empty data
URL; one frame is painted verbatim on a canvas of its own size; otherwise
consecutive overlaps are detected and the frames are drawn top to bottom,
each raised by its overlap with the previous frame. -/
def stitchFrames (frames : List ImageData) : StitchOutput :=
  match frames with
  | [] => .empty
  | [f] => .png (blit (newCanvas f.width f.height) f 0)
  | f0 :: rest =>
    let overlaps := (List.zip (f0 :: rest) rest).map (fun p => detectOverlap p.1 p.2)
    let totalHeight :=
      f0.height + ((List.zip rest overlaps).map (fun p => p.1.height - p.2)).sum
    let c0 := blit (newCanvas f0.width totalHeight) f0 0
    let final := (List.zip rest overlaps).foldl
      (fun acc p =>
        let y := acc.2 - p.2
        (blit acc.1 p.1 y, y + p.1.height))
      (c0, f0.height)
    .png final.1

end Stitching

/-- The two capture modes of main.ts: a still screenshot or a motion (gif)
recording. -/
inductive CaptureMode where
  | screenshot
  | gif
deriving DecidableEq, Repr

namespace PoolMap

/-- Embeds Map.get on the overlay pool: the value stored under a display
id, if any. -/
def lookup : List (Nat × Nat) → Nat → Option Nat
  | [], _ => none
  | e :: rest, d => if e.1 = d then some e.2 else lookup rest d

/-- Embeds Map.set: updates the entry in place or appends a new one. -/
def set : List (Nat × Nat) → Nat → Nat → List (Nat × Nat)
  | [], d, w => [(d, w)]
  | e :: rest, d, w => if e.1 = d then (d, w) :: rest else e :: set rest d w

/-- Embeds Map.delete: removes the entry with the given key. -/
def erase : List (Nat × Nat) → Nat → List (Nat × Nat)
  | [], _ => []
  | e :: rest, d => if e.1 = d then rest else e :: erase rest d

/-- The keys of a pool. -/
def keys (pool : List (Nat × Nat)) : List Nat := pool.map (fun e => e.1)

end PoolMap

namespace OverlayA

/-- The overlay-window bookkeeping of main.ts (first revision, lines
31-33 and 145-221): the pool keyed by display id, a supply of fresh
window handles, the handles destroy() has been called on, the
overlayWindows array of the running session, and the handles whose
content was reloaded on reuse. -/
structure PoolState where
  pool : List (Nat × Nat)
  nextHandle : Nat
  destroyed : List Nat
  overlayWindows : List Nat
  reloaded : List Nat
deriving DecidableEq, Repr

/-- The new-window path of getOrCreateOverlayWindow (lines 181-220): a
fresh BrowserWindow is created, loaded, registered in the pool under the
display id and appended to overlayWindows. -/
def createNew (st : PoolState) (displayId : Nat) : PoolState × Nat :=
  let w := st.nextHandle
  ({ st with
      pool := PoolMap.set st.pool displayId w
      nextHandle := w + 1
      overlayWindows := st.overlayWindows ++ [w] }, w)

/-- Embeds getOrCreateOverlayWindow (main.ts lines 156-221): with a live
pooled window, gif mode deletes it from the pool and destroys it before
creating a fresh window, while screenshot mode reuses it, reloading its
URL and appending it to overlayWindows. -/
def getOrCreateOverlayWindow (st : PoolState) (displayId : Nat) (mode : CaptureMode) :
    PoolState × Nat :=
  match PoolMap.lookup st.pool displayId with
  | some existing =>
    if existing ∉ st.destroyed then
      match mode with
      | .gif =>
        createNew
          { st with
              pool := PoolMap.erase st.pool displayId
              destroyed := existing :: st.destroyed }
          displayId
      | .screenshot =>
        ({ st with
            reloaded := existing :: st.reloaded
            overlayWindows := st.overlayWindows ++ [existing] }, existing)
    else createNew st displayId
  | none => createNew st displayId

end OverlayA

namespace OverlayB

/-- The overlay-window bookkeeping of main.ts (third revision, lines
1342-1356): pool keyed by display id, fresh handle supply, destroyed
handles, and the overlayWindows array. -/
structure PoolState where
  pool : List (Nat × Nat)
  nextHandle : Nat
  destroyed : List Nat
  overlayWindows : List Nat
deriving DecidableEq, Repr

/-- The state at application start: empty pool, no windows. -/
def initState : PoolState :=
  { pool := [], nextHandle := 0, destroyed := [], overlayWindows := [] }

/-- The destroy step of getOrCreateOverlayWindow (main.ts lines
1489-1492): a live pooled window for the display id is deleted from the
pool and destroyed. -/
def destroyExisting (st : PoolState) (displayId : Nat) : PoolState :=
  match PoolMap.lookup st.pool displayId with
  | some existing =>
    if existing ∉ st.destroyed then
      { st with
          pool := PoolMap.erase st.pool displayId
          destroyed := existing :: st.destroyed }
    else st
  | none => st

/-- Embeds getOrCreateOverlayWindow (main.ts lines 1483-1571): any live
pooled window for the display id is deleted from the pool and destroyed,
then a fresh window is created, pooled and appended to overlayWindows
(in this revision both modes take this path). -/
def getOrCreateOverlayWindow (st : PoolState) (displayId : Nat) (_mode : CaptureMode) :
    PoolState × Nat :=
  let st1 := destroyExisting st displayId
  let w := st1.nextHandle
  ({ st1 with
      pool := PoolMap.set st1.pool displayId w
      nextHandle := w + 1
      overlayWindows := st1.overlayWindows ++ [w] }, w)

/-- Embeds closeAllOverlays (main.ts lines 1458-1471): every session
window is hidden (not destroyed) and the overlayWindows array is cleared;
the pool keeps its entries. -/
def closeAllOverlays (st : PoolState) : PoolState :=
  { st with overlayWindows := [] }

/-- Embeds the pool-relevant steps of startCapture (main.ts lines
1608-1656): close the previous session's overlays, then acquire one
overlay window per connected display. -/
def startCapture (mode : CaptureMode) (displays : List Nat) (st : PoolState) :
    PoolState :=
  displays.foldl (fun s d => (getOrCreateOverlayWindow s d mode).1)
    (closeAllOverlays st)

/-- Embeds the capture:cancel handler (main.ts lines 1728-1729). -/
def captureCancel (st : PoolState) : PoolState := closeAllOverlays st

/-- A capture-start or capture-cancel operation. -/
inductive CaptureOp where
  | start (mode : CaptureMode)
  | cancel
deriving DecidableEq, Repr

/-- One operation applied to the state, with the given connected
displays. -/
def stepOp (displays : List Nat) (st : PoolState) : CaptureOp → PoolState
  | .start mode => startCapture mode displays st
  | .cancel => captureCancel st

/-- Runs a sequence of capture-start/capture-cancel operations from
application start, with a fixed list of connected displays. -/
def runOps (displays : List Nat) (ops : List CaptureOp) : PoolState :=
  ops.foldl (stepOp displays) initState

/-- The number of live (non-destroyed) pooled surfaces. -/
def livePooledCount (st : PoolState) : Nat :=
  (st.pool.filter (fun e => !(st.destroyed.contains e.2))).length

end OverlayB

namespace FocusOrder

/-- Modelled from the spec: the surface-creation ordering of startCapture.
The repository's blog (blog/primary-display-fix-article.md) documents the
current startCapture sorting the enumerated displays so that the display
nearest the cursor (screen.getDisplayNearestPoint of
screen.getCursorScreenPoint) comes last; none of the main.ts revisions
under src/ contains this sort.  The comparator moves every entry equal to
the cursor display to the end and keeps the rest stable, so the sorted
list is the non-cursor displays in order followed by the cursor display
entries. -/
def sortedDisplays (displays : List Nat) (cursorDisplayId : Nat) : List Nat :=
  displays.filter (fun d => d ≠ cursorDisplayId) ++
    displays.filter (fun d => d = cursorDisplayId)

/-- Modelled from the spec: surfaces are created in the order of
sortedDisplays, and OS focus-assignment semantics give input focus to the
most recently created top-level surface, i.e. the last one of the
creation order. -/
def focusedDisplay (creationOrder : List Nat) : Option Nat :=
  creationOrder.getLast?

end FocusOrder

namespace Stitching

/-- The frames of the detectOverlap counterexample: 4 pixels wide, 10 rows
tall, each row's first pixel carrying a red value and the rest zero. -/
def redRow (v : Nat) : List Nat :=
  [v, 0, 0, 255] ++ List.replicate 12 0

/-- Counterexample frame A: rows 2 and 3 have red 24, row 4 red 6, the
rest black. -/
def exFrameA : ImageData :=
  { width := 4, height := 10
    data := ([0, 0, 24, 24, 6, 0, 0, 0, 0, 0].map redRow).flatten }

/-- Counterexample frame B: all black. -/
def exFrameB : ImageData :=
  { width := 4, height := 10, data := List.replicate 160 0 }

end Stitching

namespace RegionSelection

/-- Claim C1: replaying the pointer-event sequence down(100,100),
move(110,110), move(200,200), up from the initial selection state any
number of times yields the same result every time, namely a commit with
the rectangle x = 100, y = 100, w = 100, h = 100. -/
theorem runOneCaptureSequence_replay (n : Nat) :
    (List.range n).map (fun _ => runOneCaptureSequence) =
      List.replicate n (some { x := 100, y := 100, w := 100, h := 100 }) := by
  induction n with
  | zero => rfl
  | succ k ih =>
    rw [List.range_succ, List.map_append, ih, List.replicate_succ']
    have hval : runOneCaptureSequence =
        some { x := 100, y := 100, w := 100, h := 100 } := by decide
    simp [hval]

/-- Claim C5: onPointerUp commits exactly when the state is dragging and
both normalized dimensions are at least MIN_SIZE_PX = 20; in particular
the drag down(100,100), move(119,100), up does not commit (width 19). -/
theorem onPointerUp_min_size :
    (∀ s : SelectionState,
      (onPointerUp s).isSome = true ↔
        (s.isDragging = true ∧
          MIN_SIZE_PX ≤ |s.currentEnd.x - s.startPos.x| ∧
          MIN_SIZE_PX ≤ |s.currentEnd.y - s.startPos.y|)) ∧
    onPointerUp
        (onPointerMove (onPointerDown createInitialState { x := 100, y := 100 })
          { x := 119, y := 100 }) = none := by
  constructor
  · intro s
    unfold onPointerUp
    cases hd : s.isDragging
    · simp [hd]
    · simp only [hd, Bool.true_eq_false, and_false, if_false, true_and]
      split
      · rename_i hcase
        simp only [Option.isSome_none, Bool.false_eq_true, false_iff]
        intro hcontra
        omega
      · rename_i hcase
        push_neg at hcase
        simp only [Option.isSome_some, true_iff]
        exact ⟨hcase.1, hcase.2⟩
  · decide

/-- Claim C5 witness: the concrete 19-pixel drag does not commit, and a
drag with both dimensions at least 20 does commit. -/
theorem onPointerUp_min_size_witness :
    onPointerUp
        (onPointerMove (onPointerDown createInitialState { x := 100, y := 100 })
          { x := 119, y := 100 }) = none ∧
    (onPointerUp
        (onPointerMove (onPointerDown createInitialState { x := 100, y := 100 })
          { x := 120, y := 130 })).isSome = true :=
  ⟨onPointerUp_min_size.2,
    (onPointerUp_min_size.1 _).mpr (by decide)⟩

/-- While a drag is in progress, pointer moves preserve the dragging flag
and the drag's start point. -/
theorem foldl_onPointerMove_dragging (moves : List Point) (s : SelectionState)
    (h : s.isDragging = true) :
    (moves.foldl onPointerMove s).isDragging = true ∧
      (moves.foldl onPointerMove s).startPos = s.startPos := by
  induction moves generalizing s with
  | nil => exact ⟨h, rfl⟩
  | cons pt rest ih =>
    have hstep : (onPointerMove s pt).isDragging = true ∧
        (onPointerMove s pt).startPos = s.startPos := by
      unfold onPointerMove
      cases hpd : s.pointerDown <;> simp [h, hpd]
    have := ih (onPointerMove s pt) hstep.1
    rw [List.foldl_cons]
    exact ⟨this.1, by rw [this.2, hstep.2]⟩

/-- A committed rectangle's corner is the normalized pair of the start and
end points. -/
theorem onPointerUp_some_corner (s : SelectionState) (r : Rect)
    (h : onPointerUp s = some r) :
    r.x = min s.startPos.x s.currentEnd.x ∧
      r.y = min s.startPos.y s.currentEnd.y := by
  unfold onPointerUp at h
  split at h
  · exact absurd h (by simp)
  · split at h
    · exact absurd h (by simp)
    · split at h
      · exact absurd h (by simp)
      · cases h
        exact ⟨rfl, rfl⟩

/-- Claim C6: once the pointer has moved at least the 5-pixel drag-start
threshold from the tentative down-point, the machine enters dragging with
the original down-point as the drag's start, this start survives all
further moves, and any committed rectangle's corner is the normalized
corner computed from that original down-point. -/
theorem drag_start_anchor (s : SelectionState) (p pt : Point)
    (moves : List Point)
    (hpd : s.pointerDown = some p) (hdrag : s.isDragging = false)
    (hdist : DRAG_START_THRESHOLD_PX ^ 2 ≤ distSq p pt) :
    (onPointerMove s pt).isDragging = true ∧
    (onPointerMove s pt).startPos = p ∧
    (moves.foldl onPointerMove (onPointerMove s pt)).startPos = p ∧
    ∀ r, onPointerUp (moves.foldl onPointerMove (onPointerMove s pt)) = some r →
      r.x = min p.x (moves.foldl onPointerMove (onPointerMove s pt)).currentEnd.x ∧
      r.y = min p.y (moves.foldl onPointerMove (onPointerMove s pt)).currentEnd.y := by
  have hstep : (onPointerMove s pt).isDragging = true ∧
      (onPointerMove s pt).startPos = p := by
    unfold onPointerMove
    simp [hpd, hdrag, hdist, ge_iff_le]
  have hfold := foldl_onPointerMove_dragging moves (onPointerMove s pt) hstep.1
  refine ⟨hstep.1, hstep.2, by rw [hfold.2, hstep.2], ?_⟩
  intro r hr
  have hc := onPointerUp_some_corner _ r hr
  rw [hfold.2, hstep.2] at hc
  exact hc

/-- Claim C6 witness: the concrete drag down(100,100), move(110,110),
move(200,200) anchors its committed rectangle at the original down-point
(100,100). -/
theorem drag_start_anchor_witness :
    (onPointerMove (onPointerDown createInitialState { x := 100, y := 100 })
        { x := 110, y := 110 }).startPos = ({ x := 100, y := 100 } : Point) :=
  (drag_start_anchor
    (onPointerDown createInitialState { x := 100, y := 100 })
    { x := 100, y := 100 } { x := 110, y := 110 }
    [{ x := 200, y := 200 }] (by decide) (by decide) (by decide)).2.1

/-- Each event step preserves the exclusion of a tentative down-point and
an active drag. -/
theorem stepEvent_preserves_exclusion (s : SelectionState) (e : PointerEvent)
    (h : s.isDragging = true → s.pointerDown = none) :
    (stepEvent s e).isDragging = true → (stepEvent s e).pointerDown = none := by
  cases e with
  | down pt =>
    show (onPointerDown s pt).isDragging = true → (onPointerDown s pt).pointerDown = none
    unfold onPointerDown
    cases hd : s.isDragging
    · simp
    · simpa [hd] using h
  | move pt =>
    show (onPointerMove s pt).isDragging = true → (onPointerMove s pt).pointerDown = none
    cases hpd : s.pointerDown with
    | none =>
      simp only [onPointerMove, hpd]
      intro hdr
      trivial
    | some p =>
      cases hd : s.isDragging
      · simp only [onPointerMove, hpd, hd]
        split
        · intro hdr
          rfl
        · intro hdr
          exact absurd hdr (by simp [hd])
      · simp [hd, hpd] at h
  | up => exact h
  | reset => intro hcontra; rfl

/-- Claim C10: in every selection state reachable from the initial state
by pointer-down, pointer-move, pointer-up and reset events, an active
drag excludes a tentative down-point: isDragging implies pointerDown is
none. -/
theorem reachable_dragging_no_pointerDown (evs : List PointerEvent) :
    (runEvents evs).isDragging = true → (runEvents evs).pointerDown = none := by
  suffices h : ∀ (l : List PointerEvent) (s : SelectionState),
      (s.isDragging = true → s.pointerDown = none) →
      ((l.foldl stepEvent s).isDragging = true →
        (l.foldl stepEvent s).pointerDown = none) by
    exact h evs createInitialState (by intro hc; cases hc)
  intro l
  induction l with
  | nil => intro s hs; exact hs
  | cons e rest ih =>
    intro s hs
    exact ih (stepEvent s e) (stepEvent_preserves_exclusion s e hs)

/-- Claim C10 witness: a reachable dragging state, obtained by
down(0,0) then move(10,10), indeed carries no tentative down-point. -/
theorem reachable_dragging_no_pointerDown_witness :
    (runEvents [PointerEvent.down { x := 0, y := 0 },
        PointerEvent.move { x := 10, y := 10 }]).isDragging = true ∧
    (runEvents [PointerEvent.down { x := 0, y := 0 },
        PointerEvent.move { x := 10, y := 10 }]).pointerDown = none :=
  ⟨by decide, reachable_dragging_no_pointerDown _ (by decide)⟩

end RegionSelection

namespace Stitching

/-- A run of frames with equal fingerprints after the kept frame is
dropped entirely. -/
theorem dedupLoop_replicate (k : Nat) (f : ImageData) :
    dedupLoop (List.replicate k f) (frameFingerprint f) = [] := by
  induction k with
  | zero => rfl
  | succ n ih => simp [List.replicate_succ, dedupLoop, ih]

/-- Claim C8: for every N ≥ 1, removeDuplicateFrames collapses a list of
N identical frames to exactly that one frame. -/
theorem removeDuplicateFrames_identical (n : Nat) (f : ImageData) (h : 1 ≤ n) :
    removeDuplicateFrames (List.replicate n f) = [f] := by
  obtain ⟨k, rfl⟩ : ∃ k, n = k + 1 := ⟨n - 1, by omega⟩
  rw [List.replicate_succ]
  show f :: dedupLoop (List.replicate k f) (frameFingerprint f) = [f]
  rw [dedupLoop_replicate]

/-- Claim C8 witness: three copies of a concrete 1x1 frame deduplicate to
that one frame. -/
theorem removeDuplicateFrames_identical_witness :
    removeDuplicateFrames
        (List.replicate 3 { width := 1, height := 1, data := [1, 2, 3, 4] }) =
      [{ width := 1, height := 1, data := [1, 2, 3, 4] }] :=
  removeDuplicateFrames_identical 3 _ (by decide)

/-- Reading a list back index by index reproduces the list. -/
theorem map_getD_range (l : List Nat) :
    (List.range l.length).map (fun i => l.getD i 0) = l := by
  apply List.ext_getElem
  · simp
  · intro i h1 h2
    have hi : i < l.length := h2
    simp only [List.getElem_map]
    rw [List.getElem_range]
    exact List.getD_eq_getElem l 0 hi

/-- Painting a frame onto a fresh canvas of its own size reproduces the
frame. -/
theorem blit_newCanvas_self (f : ImageData) (h : f.data.length = 4 * f.width * f.height) :
    blit (newCanvas f.width f.height) f 0 = f := by
  cases f with
  | mk w ht data =>
    simp only at h
    simp only [blit, newCanvas, ImageData.mk.injEq, true_and]
    have hcong : ∀ i ∈ List.range (4 * w * ht),
        (if 0 ≤ i / (4 * w) ∧ i / (4 * w) < 0 + ht ∧ i % (4 * w) < 4 * min w w then
          byteAt data ((i / (4 * w) - 0) * (4 * w) + i % (4 * w))
        else byteAt (List.replicate (4 * w * ht) 0) i) = data.getD i 0 := by
      intro i hi
      rw [List.mem_range] at hi
      have hw : 0 < 4 * w := by
        rcases Nat.eq_zero_or_pos w with h0 | h0
        · subst h0
          simp at hi
        · omega
      have hy : i / (4 * w) < ht := Nat.div_lt_of_lt_mul hi
      have hxb : i % (4 * w) < 4 * w := Nat.mod_lt _ hw
      rw [if_pos ⟨Nat.zero_le _, by omega, by rwa [min_self]⟩]
      unfold byteAt
      congr 1
      rw [Nat.sub_zero, Nat.mul_comm (i / (4 * w)) (4 * w)]
      exact Nat.div_add_mod i (4 * w)
    rw [show 4 * w * ht = (4 * w) * ht from by ring] at hcong ⊢
    rw [List.map_congr_left hcong, show (4 * w) * ht = data.length from by omega,
      map_getD_range]

/-- Claim C7: stitchFrames of no frames is the explicit empty output, and
stitchFrames of exactly one (well-formed) frame is that frame verbatim. -/
theorem stitchFrames_edge_cases (f : ImageData)
    (h : f.data.length = 4 * f.width * f.height) :
    stitchFrames [] = StitchOutput.empty ∧
      stitchFrames [f] = StitchOutput.png f := by
  refine ⟨rfl, ?_⟩
  show StitchOutput.png (blit (newCanvas f.width f.height) f 0) = StitchOutput.png f
  rw [blit_newCanvas_self f h]

/-- Claim C7 witness: the edge cases at a concrete 1x1 frame. -/
theorem stitchFrames_edge_cases_witness :
    stitchFrames [] = StitchOutput.empty ∧
      stitchFrames [{ width := 1, height := 1, data := [9, 8, 7, 6] }] =
        StitchOutput.png { width := 1, height := 1, data := [9, 8, 7, 6] } :=
  stitchFrames_edge_cases { width := 1, height := 1, data := [9, 8, 7, 6] } (by decide)

/-- The fuel-bounded candidate enumeration, with enough fuel, produces
exactly the sizes between the floor and the start that the decrement of 2
reaches. -/
theorem mem_overlapCandidatesAux (o : Nat) :
    ∀ (fuel m : Nat), m < fuel →
      (o ∈ overlapCandidatesAux fuel m ↔
        MIN_CHECK_ROWS ≤ o ∧ o ≤ m ∧ (m - o) % 2 = 0) := by
  intro fuel
  induction fuel with
  | zero => intro m hm; exact absurd hm (Nat.not_lt_zero m)
  | succ f ih =>
    intro m hm
    simp only [overlapCandidatesAux]
    split
    · rename_i hlt
      simp only [List.not_mem_nil, false_iff, MIN_CHECK_ROWS] at *
      omega
    · rename_i hge
      simp only [MIN_CHECK_ROWS, not_lt] at hge
      rw [List.mem_cons, ih (m - 2) (by omega)]
      simp only [MIN_CHECK_ROWS]
      constructor
      · rintro (rfl | ⟨h1, h2, h3⟩) <;> omega
      · rintro ⟨h1, h2, h3⟩
        by_cases he : o = m
        · exact Or.inl he
        · exact Or.inr ⟨h1, by omega, by omega⟩

/-- The candidates tried by detectOverlap are exactly the sizes between
the floor MIN_CHECK_ROWS = 5 and the 80% maximum that the fixed
decrement of 2 reaches. -/
theorem mem_overlapCandidates (o m : Nat) :
    o ∈ overlapCandidates m ↔
      MIN_CHECK_ROWS ≤ o ∧ o ≤ m ∧ (m - o) % 2 = 0 :=
  mem_overlapCandidatesAux o (m + 1) m (Nat.lt_succ_self m)

/-- When no candidate of the remaining list is accepted, the search
returns its accumulator. -/
theorem searchLoop_no_accept (A B : ImageData) (l : List Nat)
    (best : Nat) (m : Option Frac) (h : ∀ o ∈ l, ¬ accepted A B o) :
    searchLoop A B l best m = best := by
  induction l generalizing best m with
  | nil => rfl
  | cons o rest ih =>
    simp only [searchLoop]
    split
    · exact ih best m (fun x hx => h x (List.mem_cons_of_mem _ hx))
    · rename_i q hc
      have hq : ¬ q.ltInt MSE_THRESHOLD = true := fun hlt =>
        h o (List.mem_cons_self o rest) ⟨q, hc, hlt⟩
      rw [if_neg (fun hcond => hq (Bool.and_eq_true _ _ ▸ hcond).1)]
      exact ih best m (fun x hx => h x (List.mem_cons_of_mem _ hx))

/-- When some candidate of the remaining list is accepted, or the
accumulator already holds an accepted candidate, the search result is an
accepted candidate drawn from the allowed set. -/
theorem searchLoop_accept (A B : ImageData) (S : List Nat) (l : List Nat) :
    ∀ (best : Nat) (m : Option Frac),
      (∀ o ∈ l, o ∈ S) →
      (∀ q, m = some q →
        candidateMSE A B best = some q ∧ q.ltInt MSE_THRESHOLD = true ∧ best ∈ S) →
      ((∃ o ∈ l, accepted A B o) ∨ m ≠ none) →
      accepted A B (searchLoop A B l best m) ∧ searchLoop A B l best m ∈ S := by
  induction l with
  | nil =>
    intro best m _ hgood hex
    rcases hex with ⟨o, ho, _⟩ | hm
    · exact absurd ho (List.not_mem_nil o)
    · obtain ⟨q, hq⟩ := Option.ne_none_iff_exists'.mp hm
      obtain ⟨h1, h2, h3⟩ := hgood q hq
      exact ⟨⟨q, h1, h2⟩, h3⟩
  | cons o rest ih =>
    intro best m hsub hgood hex
    simp only [searchLoop]
    split
    · rename_i hc
      refine ih best m (fun x hx => hsub x (List.mem_cons_of_mem _ hx)) hgood ?_
      rcases hex with ⟨o1, ho1, hacc⟩ | hm
      · rcases List.mem_cons.mp ho1 with rfl | hr
        · obtain ⟨q, hq, _⟩ := hacc
          rw [hc] at hq
          cases hq
        · exact Or.inl ⟨o1, hr, hacc⟩
      · exact Or.inr hm
    · rename_i q hc
      by_cases hcond : (q.ltInt MSE_THRESHOLD && beatsBest q m) = true
      · rw [if_pos hcond]
        have hq50 : q.ltInt MSE_THRESHOLD = true := (Bool.and_eq_true _ _ ▸ hcond).1
        by_cases h20 : q.ltInt 20 = true
        · rw [if_pos h20]
          exact ⟨⟨q, hc, hq50⟩, hsub o (List.mem_cons_self o rest)⟩
        · rw [if_neg h20]
          refine ih o (some q) (fun x hx => hsub x (List.mem_cons_of_mem _ hx)) ?_ ?_
          · intro q1 hq1
            cases hq1
            exact ⟨hc, hq50, hsub o (List.mem_cons_self o rest)⟩
          · exact Or.inr (by simp)
      · rw [if_neg hcond]
        refine ih best m (fun x hx => hsub x (List.mem_cons_of_mem _ hx)) hgood ?_
        rcases hex with ⟨o1, ho1, hacc⟩ | hm
        · rcases List.mem_cons.mp ho1 with rfl | hr
          · obtain ⟨q1, hq1, hlt1⟩ := hacc
            rw [hc] at hq1
            cases hq1
            refine Or.inr ?_
            intro hmn
            subst hmn
            exact hcond (by rw [hlt1]; rfl)
          · exact Or.inl ⟨o1, hr, hacc⟩
        · exact Or.inr hm

/-- Claim C2 counterexample: on the concrete frames exFrameA/exFrameB the
candidate overlap 8 is accepted (its average sampled-row error 49.5 is
below the threshold 50), yet detectOverlap returns 6, not the largest
accepted candidate: a smaller candidate with lower error wins. -/
theorem detectOverlap_not_largest_accepted :
    accepted exFrameA exFrameB 8 ∧
      8 ∈ overlapCandidates (maxOverlapOf exFrameA exFrameB) ∧
      detectOverlap exFrameA exFrameB = 6 := by
  refine ⟨?_, ?_, ?_⟩ <;> decide

/-- Claim C2 (amended): detectOverlap searches candidate overlaps from
80% of the shorter frame's height downward in fixed steps of 2 down to
the floor of 5; if no candidate's average sampled-row error is below the
acceptance threshold it returns zero, and if some candidate is accepted
it returns an accepted candidate (the search prefers lower average error
over larger size, stopping early below 20, so the result need not be the
largest accepted candidate). -/
theorem detectOverlap_search_spec (A B : ImageData) :
    (∀ o, o ∈ overlapCandidates (maxOverlapOf A B) ↔
      (MIN_CHECK_ROWS ≤ o ∧ o ≤ maxOverlapOf A B ∧
        (maxOverlapOf A B - o) % 2 = 0)) ∧
    ((∀ o ∈ overlapCandidates (maxOverlapOf A B), ¬ accepted A B o) →
      detectOverlap A B = 0) ∧
    ((∃ o ∈ overlapCandidates (maxOverlapOf A B), accepted A B o) →
      accepted A B (detectOverlap A B) ∧
        detectOverlap A B ∈ overlapCandidates (maxOverlapOf A B)) := by
  refine ⟨fun o => mem_overlapCandidates o _, ?_, ?_⟩
  · intro h
    exact searchLoop_no_accept A B _ 0 none h
  · intro hex
    exact searchLoop_accept A B (overlapCandidates (maxOverlapOf A B)) _ 0 none
      (fun o ho => ho) (fun q hq => by cases hq) (Or.inl hex)

/-- Claim C2 witness: on the concrete counterexample frames some
candidate is accepted, so detectOverlap returns an accepted candidate
from the searched set. -/
theorem detectOverlap_search_spec_witness :
    accepted exFrameA exFrameB (detectOverlap exFrameA exFrameB) ∧
      detectOverlap exFrameA exFrameB ∈
        overlapCandidates (maxOverlapOf exFrameA exFrameB) :=
  (detectOverlap_search_spec exFrameA exFrameB).2.2 ⟨8, by decide, by decide⟩

end Stitching

namespace PoolMap

/-- Looking up the key just set finds the new value. -/
theorem lookup_set_self (p : List (Nat × Nat)) (d w : Nat) :
    lookup (set p d w) d = some w := by
  induction p with
  | nil => simp [set, lookup]
  | cons e rest ih =>
    by_cases he : e.1 = d
    · simp [set, he, lookup]
    · simp [set, he, lookup, ih]

/-- A key of the pool after a set is an old key or the new key. -/
theorem mem_keys_set (p : List (Nat × Nat)) (d w k : Nat)
    (h : k ∈ keys (set p d w)) : k ∈ keys p ∨ k = d := by
  induction p with
  | nil => simp [set, keys] at h; exact Or.inr h
  | cons e rest ih =>
    by_cases he : e.1 = d
    · simp only [set, if_pos he, keys, List.map_cons, List.mem_cons] at h
      rcases h with rfl | h
      · exact Or.inr rfl
      · exact Or.inl (by simp [keys, List.mem_cons]; right; simpa [keys] using h)
    · simp only [set, if_neg he, keys, List.map_cons, List.mem_cons] at h
      rcases h with rfl | h
      · exact Or.inl (by simp [keys])
      · rcases ih (by simpa [keys] using h) with h2 | rfl
        · exact Or.inl (by simp [keys]; right; simpa [keys] using h2)
        · exact Or.inr rfl

/-- Setting a key keeps pool keys duplicate-free. -/
theorem nodup_keys_set (p : List (Nat × Nat)) (d w : Nat)
    (h : (keys p).Nodup) : (keys (set p d w)).Nodup := by
  induction p with
  | nil => simp [set, keys]
  | cons e rest ih =>
    simp only [keys, List.map_cons, List.nodup_cons] at h
    by_cases he : e.1 = d
    · simp only [set, if_pos he, keys, List.map_cons, List.nodup_cons]
      exact ⟨by rw [← he]; exact h.1, h.2⟩
    · simp only [set, if_neg he, keys, List.map_cons, List.nodup_cons]
      refine ⟨?_, ih h.2⟩
      intro hcontra
      rcases mem_keys_set rest d w e.1 (by simpa [keys] using hcontra) with h2 | rfl
      · exact h.1 (by simpa [keys] using h2)
      · exact he rfl

/-- Erasing a key keeps only old keys. -/
theorem keys_erase_subset (p : List (Nat × Nat)) (d : Nat) :
    keys (erase p d) ⊆ keys p := by
  induction p with
  | nil => simp [erase, keys]
  | cons e rest ih =>
    by_cases he : e.1 = d
    · simp only [erase, if_pos he, keys, List.map_cons]
      exact fun k hk => List.mem_cons_of_mem _ hk
    · simp only [erase, if_neg he, keys, List.map_cons]
      intro k hk
      rcases List.mem_cons.mp hk with rfl | hk2
      · exact List.mem_cons_self _ _
      · exact List.mem_cons_of_mem _ (ih hk2)

/-- Erasing a key keeps pool keys duplicate-free. -/
theorem nodup_keys_erase (p : List (Nat × Nat)) (d : Nat)
    (h : (keys p).Nodup) : (keys (erase p d)).Nodup := by
  induction p with
  | nil => simp [erase, keys]
  | cons e rest ih =>
    simp only [keys, List.map_cons, List.nodup_cons] at h
    by_cases he : e.1 = d
    · simpa only [erase, if_pos he, keys] using h.2
    · simp only [erase, if_neg he, keys, List.map_cons, List.nodup_cons]
      exact ⟨fun hc => h.1 (keys_erase_subset rest d hc), ih h.2⟩

end PoolMap

namespace OverlayA

/-- Claim C3: with a live pooled surface for a display id, acquiring in
gif (Motion) mode destroys that surface and pools a freshly created one,
while acquiring in screenshot (StillImage) mode returns the existing
surface with its content reloaded, destroying nothing and leaving the
pool unchanged. -/
theorem acquire_mode_policy (st : PoolState) (d h : Nat)
    (hlook : PoolMap.lookup st.pool d = some h)
    (hlive : h ∉ st.destroyed)
    (hfresh : st.nextHandle ≠ h) :
    (h ∈ (getOrCreateOverlayWindow st d .gif).1.destroyed ∧
      (getOrCreateOverlayWindow st d .gif).2 = st.nextHandle ∧
      (getOrCreateOverlayWindow st d .gif).2 ≠ h ∧
      PoolMap.lookup (getOrCreateOverlayWindow st d .gif).1.pool d =
        some (getOrCreateOverlayWindow st d .gif).2) ∧
    ((getOrCreateOverlayWindow st d .screenshot).2 = h ∧
      (getOrCreateOverlayWindow st d .screenshot).1.pool = st.pool ∧
      (getOrCreateOverlayWindow st d .screenshot).1.destroyed = st.destroyed ∧
      h ∈ (getOrCreateOverlayWindow st d .screenshot).1.reloaded) := by
  constructor
  · refine ⟨?_, ?_, ?_, ?_⟩
    · simp [getOrCreateOverlayWindow, hlook, if_pos hlive, createNew]
    · simp [getOrCreateOverlayWindow, hlook, if_pos hlive, createNew]
    · simpa [getOrCreateOverlayWindow, hlook, if_pos hlive, createNew] using hfresh
    · simp [getOrCreateOverlayWindow, hlook, if_pos hlive, createNew,
        PoolMap.lookup_set_self]
  · refine ⟨?_, ?_, ?_, ?_⟩ <;>
      simp [getOrCreateOverlayWindow, hlook, if_pos hlive]

/-- Claim C3 witness: the mode policy at a concrete one-entry pool. -/
theorem acquire_mode_policy_witness :
    (getOrCreateOverlayWindow
        { pool := [(7, 0)], nextHandle := 1, destroyed := [],
          overlayWindows := [], reloaded := [] } 7 .gif).2 = 1 ∧
      0 ∈ (getOrCreateOverlayWindow
        { pool := [(7, 0)], nextHandle := 1, destroyed := [],
          overlayWindows := [], reloaded := [] } 7 .gif).1.destroyed ∧
      (getOrCreateOverlayWindow
        { pool := [(7, 0)], nextHandle := 1, destroyed := [],
          overlayWindows := [], reloaded := [] } 7 .screenshot).2 = 0 :=
  have happ := acquire_mode_policy
    { pool := [(7, 0)], nextHandle := 1, destroyed := [],
      overlayWindows := [], reloaded := [] } 7 0
    (by decide) (by decide) (by decide)
  ⟨happ.1.2.1, happ.1.1, happ.2.1⟩

end OverlayA

namespace OverlayB

/-- The destroy step leaves the pool unchanged or erases the acquired
display id. -/
theorem destroyExisting_pool (st : PoolState) (d : Nat) :
    (destroyExisting st d).pool = st.pool ∨
      (destroyExisting st d).pool = PoolMap.erase st.pool d := by
  unfold destroyExisting
  split
  · split
    · exact Or.inr rfl
    · exact Or.inl rfl
  · exact Or.inl rfl

/-- Acquiring a surface for a connected display preserves the pool
invariant: duplicate-free keys, all of them connected displays. -/
theorem getOrCreate_preserves (displays : List Nat) (st : PoolState)
    (d : Nat) (mode : CaptureMode) (hd : d ∈ displays)
    (h1 : (PoolMap.keys st.pool).Nodup)
    (h2 : ∀ k ∈ PoolMap.keys st.pool, k ∈ displays) :
    (PoolMap.keys (getOrCreateOverlayWindow st d mode).1.pool).Nodup ∧
      ∀ k ∈ PoolMap.keys (getOrCreateOverlayWindow st d mode).1.pool,
        k ∈ displays := by
  have hpool : (getOrCreateOverlayWindow st d mode).1.pool =
      PoolMap.set (destroyExisting st d).pool d (destroyExisting st d).nextHandle := rfl
  have h1d : (PoolMap.keys (destroyExisting st d).pool).Nodup := by
    rcases destroyExisting_pool st d with he | he <;> rw [he]
    · exact h1
    · exact PoolMap.nodup_keys_erase _ _ h1
  have h2d : ∀ k ∈ PoolMap.keys (destroyExisting st d).pool, k ∈ displays := by
    rcases destroyExisting_pool st d with he | he <;> rw [he]
    · exact h2
    · exact fun k hk => h2 k (PoolMap.keys_erase_subset _ _ hk)
  rw [hpool]
  refine ⟨PoolMap.nodup_keys_set _ _ _ h1d, ?_⟩
  intro k hk
  rcases PoolMap.mem_keys_set _ _ _ _ hk with hk2 | rfl
  · exact h2d k hk2
  · exact hd

/-- A whole capture session (close previous overlays, then acquire one
surface per connected display) preserves the pool invariant. -/
theorem startCapture_preserves (displays : List Nat) (mode : CaptureMode)
    (st : PoolState)
    (h1 : (PoolMap.keys st.pool).Nodup)
    (h2 : ∀ k ∈ PoolMap.keys st.pool, k ∈ displays) :
    (PoolMap.keys (startCapture mode displays st).pool).Nodup ∧
      ∀ k ∈ PoolMap.keys (startCapture mode displays st).pool, k ∈ displays := by
  unfold startCapture
  have main : ∀ (ds : List Nat) (s : PoolState), (∀ x ∈ ds, x ∈ displays) →
      (PoolMap.keys s.pool).Nodup → (∀ k ∈ PoolMap.keys s.pool, k ∈ displays) →
      (PoolMap.keys
          (ds.foldl (fun s d => (getOrCreateOverlayWindow s d mode).1) s).pool).Nodup ∧
        ∀ k ∈ PoolMap.keys
            (ds.foldl (fun s d => (getOrCreateOverlayWindow s d mode).1) s).pool,
          k ∈ displays := by
    intro ds
    induction ds with
    | nil => intro s _ hs1 hs2; exact ⟨hs1, hs2⟩
    | cons d rest ih =>
      intro s hds hs1 hs2
      have hstep := getOrCreate_preserves displays s d mode
        (hds d (List.mem_cons_self d rest)) hs1 hs2
      exact ih _ (fun x hx => hds x (List.mem_cons_of_mem _ hx)) hstep.1 hstep.2
  exact main displays (closeAllOverlays st) (fun x hx => hx) h1 h2

/-- Claim C9: after every sequence of capture-start and capture-cancel
operations over a fixed list of connected displays, the number of live
pooled overlay surfaces never exceeds the number of connected displays
(the pool holds at most one surface per display id). -/
theorem pool_resource_bound (displays : List Nat) (ops : List CaptureOp) :
    livePooledCount (runOps displays ops) ≤ displays.length := by
  have main : ∀ (l : List CaptureOp) (st : PoolState),
      (PoolMap.keys st.pool).Nodup → (∀ k ∈ PoolMap.keys st.pool, k ∈ displays) →
      (PoolMap.keys (l.foldl (stepOp displays) st).pool).Nodup ∧
        ∀ k ∈ PoolMap.keys (l.foldl (stepOp displays) st).pool, k ∈ displays := by
    intro l
    induction l with
    | nil => intro st hs1 hs2; exact ⟨hs1, hs2⟩
    | cons op rest ih =>
      intro st hs1 hs2
      cases op with
      | start mode =>
        have hstep := startCapture_preserves displays mode st hs1 hs2
        exact ih _ hstep.1 hstep.2
      | cancel => exact ih _ hs1 hs2
  have hinv := main ops initState (by simp [initState, PoolMap.keys])
    (by simp [initState, PoolMap.keys])
  set st := ops.foldl (stepOp displays) initState with hst
  have hcount : livePooledCount st ≤ st.pool.length :=
    List.length_filter_le _ _
  have hkeys : st.pool.length = (PoolMap.keys st.pool).length :=
    (List.length_map st.pool _).symm
  have hle : (PoolMap.keys st.pool).length ≤ displays.length :=
    (List.subperm_of_subset hinv.1 (fun k hk => hinv.2 k hk)).length_le
  calc livePooledCount st ≤ st.pool.length := hcount
    _ = (PoolMap.keys st.pool).length := hkeys
    _ ≤ displays.length := hle

/-- Claim C9 witness: three sessions over two displays, with a cancel in
between, leave at most two live pooled surfaces. -/
theorem pool_resource_bound_witness :
    livePooledCount
        (runOps [1, 2]
          [CaptureOp.start CaptureMode.screenshot, CaptureOp.cancel,
            CaptureOp.start CaptureMode.gif]) ≤ 2 :=
  pool_resource_bound [1, 2]
    [CaptureOp.start CaptureMode.screenshot, CaptureOp.cancel,
      CaptureOp.start CaptureMode.gif]

end OverlayB

namespace FocusOrder

/-- Claim C4: when the cursor's display is among the enumerated displays,
the creation order materializes every display exactly once, the cursor's
display comes last, and so the cursor's display receives input focus
(focus goes to the most recently created surface). -/
theorem cursor_display_focused (displays : List Nat) (cursorId : Nat)
    (hmem : cursorId ∈ displays) :
    focusedDisplay (sortedDisplays displays cursorId) = some cursorId ∧
      List.Perm (sortedDisplays displays cursorId) displays := by
  constructor
  · unfold focusedDisplay sortedDisplays
    have hBmem : cursorId ∈ displays.filter (fun d => d = cursorId) := by
      simp [List.mem_filter, hmem]
    have hBne : displays.filter (fun d => d = cursorId) ≠ [] :=
      List.ne_nil_of_mem hBmem
    rw [List.getLast?_append_of_ne_nil _ hBne,
      List.getLast?_eq_getLast_of_ne_nil hBne]
    have hlast := List.getLast_mem hBne
    have heq : displays.getLast? = displays.getLast? := rfl
    have hval := List.of_mem_filter hlast
    simp only [decide_eq_true_eq] at hval
    rw [hval]
  · have hfun : ∀ x ∈ displays,
        (fun d => decide (d = cursorId)) x = (fun d => !(decide (d ≠ cursorId))) x := by
      intro x hx
      simp [decide_not]
    unfold sortedDisplays
    rw [List.filter_congr hfun]
    exact List.filter_append_perm _ displays

/-- Claim C4 witness: with displays enumerated as cursor display 5 first
then display 2, the creation order ends with display 5, which therefore
receives focus. -/
theorem cursor_display_focused_witness :
    focusedDisplay (sortedDisplays [5, 2] 5) = some 5 :=
  (cursor_display_focused [5, 2] 5 (by decide)).1

end FocusOrder
